import Mathlib

/-!
# Verification of the task-tracker capture core

A shallow embedding of `src/cmd/task-tracker/main.go`:

* `Screenshot` / `SessionMetadata` / `TaskTracker` mirror the Go structs;
* Go `float64` arithmetic is modelled by `GoFloat` over exact rationals,
  with correctly-rounded (round-to-nearest, ties-to-even, 53-bit
  significand) division and multiplication, `+Inf` for division of a
  positive number by zero and `NaN` for `0 * Inf`, exactly as IEEE-754
  binary64 (Go's float64) behaves on the value ranges this program uses
  (no overflow/subnormal handling is needed: all values are 0 or lie in
  `[1, 2^63)`);
* `sampleScreenshots`, `setupMonitors`, `StopCapture`, `captureScreenshot`
  and the JSON metadata round trip are translated function by function;
  a result of `none` models a Go runtime panic (index out of range /
  implementation-defined float-to-int conversion).
-/

/-- Per-capture metadata record (Go struct `Screenshot`). -/
structure Screenshot where
  Path : List Char
  Monitor : Int
  Timestamp : List Char
  RelativeTime : ℚ
  Resolution : List Char
deriving DecidableEq, Repr, Inhabited

/-! ## A model of Go float64 arithmetic

All numbers this program feeds through `float64` are integers below
`2^63` or quotients/products of such, so a model with exact rationals,
a correct rounding function and the two special values `+Inf` / `NaN`
(arising from `x/0` and `0*Inf`) is faithful. -/

/-- Round a rational to the nearest integer, ties to even
(the IEEE-754 default rounding of a significand). -/
def rne (q : ℚ) : ℤ :=
  if q - ⌊q⌋ < 1/2 then ⌊q⌋
  else if (1/2 : ℚ) < q - ⌊q⌋ then ⌊q⌋ + 1
  else if 2 ∣ ⌊q⌋ then ⌊q⌋ else ⌊q⌋ + 1

/-- Fuel-driven binary logarithm (structural recursion, so that it
reduces inside the kernel). -/
def log2Aux : ℕ → ℕ → ℕ
  | 0, _ => 0
  | fuel+1, n => if n ≤ 1 then 0 else log2Aux fuel (n / 2) + 1

/-- `⌊log₂ n⌋` for `n ≥ 1` (0 at 0). -/
def natLog2 (n : ℕ) : ℕ := log2Aux n n

/-- `⌊log₂ q⌋` for a positive rational (junk elsewhere). -/
def log2Q (q : ℚ) : ℤ :=
  let a : ℤ := natLog2 q.num.toNat
  let b : ℤ := natLog2 q.den
  if (2:ℚ) ^ (a - b) ≤ q then a - b else a - b - 1

/-- Round a rational to the nearest IEEE-754 binary64 value
(53-bit significand, round-to-nearest ties-to-even), ignoring
overflow and subnormals, which the program never reaches. -/
def rnd (q : ℚ) : ℚ :=
  if q = 0 then 0
  else if 0 < q then
    (rne (q * 2 ^ (52 - log2Q q)) : ℚ) * 2 ^ (log2Q q - 52)
  else
    -((rne (-q * 2 ^ (52 - log2Q (-q))) : ℚ) * 2 ^ (log2Q (-q) - 52))

/-- A Go `float64` value as the program can produce it: a finite
(representable) rational, a signed infinity, or NaN. -/
inductive GoFloat where
  | finite (q : ℚ)
  | inf (neg : Bool)
  | nan
deriving DecidableEq, Repr

/-- Go `float64(i)` conversion of an integer (rounds when `|i| ≥ 2^53`). -/
def goOfInt (i : ℤ) : GoFloat := .finite (rnd i)

/-- Go float64 division (IEEE correctly rounded; `x/0 = ±Inf` for
`x ≠ 0`, `0/0 = NaN`). -/
def goDiv : GoFloat → GoFloat → GoFloat
  | .nan, _ => .nan
  | _, .nan => .nan
  | .finite x, .finite y =>
      if y = 0 then
        if x = 0 then .nan else .inf (decide (x < 0))
      else .finite (rnd (x / y))
  | .finite _, .inf _ => .finite 0
  | .inf s, .finite y => .inf (xor s (decide (y < 0)))
  | .inf _, .inf _ => .nan

/-- Go float64 multiplication (IEEE correctly rounded; `0 * Inf = NaN`). -/
def goMul : GoFloat → GoFloat → GoFloat
  | .nan, _ => .nan
  | _, .nan => .nan
  | .finite x, .finite y => .finite (rnd (x * y))
  | .finite x, .inf s => if x = 0 then .nan else .inf (xor s (decide (x < 0)))
  | .inf s, .finite y => if y = 0 then .nan else .inf (xor s (decide (y < 0)))
  | .inf s, .inf s' => .inf (xor s s')

/-- Go `int(f)` conversion: truncation toward zero. For NaN, infinities
and out-of-int64-range values the Go spec leaves the result
implementation-defined (on amd64 it is `minInt64`, which then makes any
slice index expression panic); we model those cases as `none`. -/
def goToInt : GoFloat → Option ℤ
  | .finite q =>
      let t : ℤ := if 0 ≤ q then ⌊q⌋ else -⌊-q⌋
      if -(2^63) ≤ t ∧ t < 2^63 then some t else none
  | .inf _ => none
  | .nan => none

/-! ## `sampleScreenshots` (main.go lines 422-436)

```go
func (t *TaskTracker) sampleScreenshots(count int) []Screenshot {
    if len(t.Screenshots) <= count {
        return t.Screenshots
    }
    selected := []Screenshot{}
    step := float64(len(t.Screenshots)-1) / float64(count-1)
    for i := 0; i < count; i++ {
        idx := int(float64(i) * step)
        selected = append(selected, t.Screenshots[idx])
    }
    return selected
}
```

`none` models a panic (invalid index). -/

/-- The `for i := 0; i < count; i++` body: select `t.Screenshots[idx]`
for `idx := int(float64(i) * step)`, appending in loop order; `none`
models the panic on an invalid index. -/
def sampleLoop (shots : List Screenshot) (step : GoFloat) : List ℕ → Option (List Screenshot)
  | [] => some []
  | i :: rest =>
      match goToInt (goMul (goOfInt (i : ℤ)) step) with
      | some idx =>
          if idx < 0 then none
          else
            match shots[idx.toNat]? with
            | some sh =>
                match sampleLoop shots step rest with
                | some l => some (sh :: l)
                | none => none
            | none => none
      | none => none

/-- Even sampling of the screenshot list, translated from
`sampleScreenshots`. -/
def sampleScreenshots (shots : List Screenshot) (count : ℤ) : Option (List Screenshot) :=
  if (shots.length : ℤ) ≤ count then some shots
  else
    sampleLoop shots
      (goDiv (goOfInt ((shots.length : ℤ) - 1)) (goOfInt (count - 1)))
      (List.range count.toNat)

/-- A list of `n` pairwise-distinct screenshot records used as concrete
test data (record `i` carries monitor number `i`). -/
def testShots (n : ℕ) : List Screenshot :=
  List.map (fun i : ℕ => ⟨[], (i : ℤ), [], 0, []⟩) (List.range n)

/-! ## Correctness of the float model -/

theorem log2Aux_spec : ∀ fuel n, 1 ≤ n → n ≤ fuel →
    2 ^ log2Aux fuel n ≤ n ∧ n < 2 ^ (log2Aux fuel n + 1) := by
  intro fuel
  induction fuel with
  | zero => intro n h1 h2; omega
  | succ fuel ih =>
      intro n h1 h2
      by_cases hn : n ≤ 1
      · have : n = 1 := by omega
        subst this
        simp [log2Aux]
      · have h2n : 2 ≤ n := by omega
        have hm1 : 1 ≤ n / 2 := by omega
        have hm2 : n / 2 ≤ fuel := by omega
        obtain ⟨ihl, ihr⟩ := ih (n / 2) hm1 hm2
        have hunf : log2Aux (fuel + 1) n = log2Aux fuel (n / 2) + 1 := by
          simp [log2Aux, hn]
        rw [hunf]
        constructor
        · have : 2 ^ (log2Aux fuel (n / 2) + 1) = 2 * 2 ^ log2Aux fuel (n / 2) := by ring
          rw [this]
          omega
        · have : 2 ^ (log2Aux fuel (n / 2) + 1 + 1) = 2 * 2 ^ (log2Aux fuel (n / 2) + 1) := by
            ring
          rw [this]
          omega

theorem natLog2_spec (n : ℕ) (h : 1 ≤ n) :
    2 ^ natLog2 n ≤ n ∧ n < 2 ^ (natLog2 n + 1) :=
  log2Aux_spec n n h le_rfl

theorem log2Q_spec (q : ℚ) (hq : 0 < q) :
    (2:ℚ) ^ log2Q q ≤ q ∧ q < (2:ℚ) ^ (log2Q q + 1) := by
  have hnum0 : 0 < q.num := Rat.num_pos.mpr hq
  have hnum : 1 ≤ q.num.toNat := by omega
  have hden : 1 ≤ q.den := q.den_pos
  obtain ⟨ha1, ha2⟩ := natLog2_spec _ hnum
  obtain ⟨hb1, hb2⟩ := natLog2_spec _ hden
  set a := natLog2 q.num.toNat with hadef
  set b := natLog2 q.den with hbdef
  have hqnd : q = (q.num : ℚ) / (q.den : ℚ) := (Rat.num_div_den q).symm
  have hdenQ : (0:ℚ) < (q.den : ℚ) := by exact_mod_cast q.den_pos
  have hnumQ : (0:ℚ) < (q.num : ℚ) := by exact_mod_cast hnum0
  have hcastnum : ((q.num.toNat : ℕ) : ℚ) = (q.num : ℚ) := by
    have h := Int.toNat_of_nonneg hnum0.le
    exact_mod_cast congrArg (fun z : ℤ => (z : ℚ)) h
  have two0 : (2:ℚ) ≠ 0 := two_ne_zero
  have hA1 : (2:ℚ) ^ (a : ℤ) ≤ (q.num : ℚ) := by
    rw [zpow_natCast, ← hcastnum]; exact_mod_cast ha1
  have hA2 : (q.num : ℚ) < (2:ℚ) ^ ((a : ℤ) + 1) := by
    rw [show ((a : ℤ) + 1) = ((a + 1 : ℕ) : ℤ) by push_cast; ring, zpow_natCast, ← hcastnum]
    exact_mod_cast ha2
  have hB1 : (2:ℚ) ^ (b : ℤ) ≤ (q.den : ℚ) := by
    rw [zpow_natCast]; exact_mod_cast hb1
  have hB2 : (q.den : ℚ) < (2:ℚ) ^ ((b : ℤ) + 1) := by
    rw [show ((b : ℤ) + 1) = ((b + 1 : ℕ) : ℤ) by push_cast; ring, zpow_natCast]
    exact_mod_cast hb2
  -- strict sandwich: 2 ^ (a - b - 1) < q < 2 ^ (a - b + 1)
  have hlow : (2:ℚ) ^ ((a : ℤ) - b - 1) < q := by
    rw [hqnd, show ((a : ℤ) - b - 1) = (a : ℤ) - ((b : ℤ) + 1) by ring, zpow_sub₀ two0,
      div_lt_div_iff (by positivity) hdenQ]
    calc (2:ℚ) ^ (a : ℤ) * (q.den : ℚ)
        < (2:ℚ) ^ (a : ℤ) * (2:ℚ) ^ ((b : ℤ) + 1) :=
          mul_lt_mul_of_pos_left hB2 (by positivity)
      _ ≤ (q.num : ℚ) * (2:ℚ) ^ ((b : ℤ) + 1) :=
          mul_le_mul_of_nonneg_right hA1 (by positivity)
  have hup : q < (2:ℚ) ^ ((a : ℤ) - b + 1) := by
    rw [hqnd, show ((a : ℤ) - b + 1) = ((a : ℤ) + 1) - b by ring, zpow_sub₀ two0,
      div_lt_div_iff hdenQ (by positivity)]
    calc (q.num : ℚ) * (2:ℚ) ^ (b : ℤ)
        < (2:ℚ) ^ ((a : ℤ) + 1) * (2:ℚ) ^ (b : ℤ) :=
          mul_lt_mul_of_pos_right hA2 (by positivity)
      _ ≤ (2:ℚ) ^ ((a : ℤ) + 1) * (q.den : ℚ) :=
          mul_le_mul_of_nonneg_left hB1 (by positivity)
  by_cases hif : (2:ℚ) ^ ((a : ℤ) - b) ≤ q
  · have he : log2Q q = (a : ℤ) - b := by
      simp only [log2Q, ← hadef, ← hbdef, hif, if_true]
    rw [he]
    exact ⟨hif, by simpa using hup⟩
  · have he : log2Q q = (a : ℤ) - b - 1 := by
      simp only [log2Q, ← hadef, ← hbdef, hif, if_false]
    rw [he]
    refine ⟨hlow.le, ?_⟩
    rw [show ((a : ℤ) - b - 1 + 1) = (a : ℤ) - b by ring]
    exact lt_of_not_le hif

theorem rne_abs_sub (q : ℚ) : |(rne q : ℚ) - q| ≤ 1/2 := by
  have hf : (⌊q⌋ : ℚ) ≤ q := Int.floor_le q
  have hc : q < ⌊q⌋ + 1 := Int.lt_floor_add_one q
  unfold rne
  split_ifs with h1 h2 h3 <;> rw [abs_le] <;> constructor <;> push_cast <;> linarith

theorem rne_intCast (n : ℤ) : rne (n : ℚ) = n := by
  have : ((n : ℚ) - ⌊(n : ℚ)⌋) = 0 := by simp
  unfold rne
  rw [this]
  norm_num

theorem rnd_abs_err (q : ℚ) (h : 1 ≤ q) : |rnd q - q| ≤ q * (2:ℚ) ^ (-53 : ℤ) := by
  have hq0 : 0 < q := by linarith
  have hqne : q ≠ 0 := ne_of_gt hq0
  set e : ℤ := log2Q q with he
  set x : ℚ := q * 2 ^ (52 - e) with hx
  have hrnd : rnd q = (rne x : ℚ) * 2 ^ (e - 52) := by
    rw [rnd, if_neg hqne, if_pos hq0]
  have hq : q = x * 2 ^ (e - 52) := by
    rw [hx, mul_assoc, ← zpow_add₀ (two_ne_zero : (2:ℚ) ≠ 0)]
    norm_num
  have hpow : (0:ℚ) < 2 ^ (e - 52) := by positivity
  have hsplit : rnd q - q = ((rne x : ℚ) - x) * 2 ^ (e - 52) := by
    rw [hrnd]
    conv_lhs => rw [hq]
    ring
  rw [hsplit, abs_mul, abs_of_pos hpow]
  calc |(rne x : ℚ) - x| * 2 ^ (e - 52)
      ≤ (1/2) * 2 ^ (e - 52) := mul_le_mul_of_nonneg_right (rne_abs_sub x) hpow.le
    _ = 2 ^ (e - 53) := by
        rw [show (e - 53) = (-1) + (e - 52) by ring, zpow_add₀ (two_ne_zero : (2:ℚ) ≠ 0)]
        norm_num
    _ = 2 ^ e * 2 ^ (-53 : ℤ) := by
        rw [← zpow_add₀ (two_ne_zero : (2:ℚ) ≠ 0)]
        ring_nf
    _ ≤ q * 2 ^ (-53 : ℤ) := by
        apply mul_le_mul_of_nonneg_right (log2Q_spec q hq0).1 (by positivity)

theorem rnd_le_upper (q : ℚ) (h : 1 ≤ q) : rnd q ≤ q * (1 + (2:ℚ) ^ (-53 : ℤ)) := by
  have := (abs_le.mp (rnd_abs_err q h)).2
  nlinarith [this]

theorem rnd_ge_lower (q : ℚ) (h : 1 ≤ q) : q * (1 - (2:ℚ) ^ (-53 : ℤ)) ≤ rnd q := by
  have := (abs_le.mp (rnd_abs_err q h)).1
  nlinarith [this]

theorem log2Q_nonneg (q : ℚ) (h : 1 ≤ q) : 0 ≤ log2Q q := by
  have hq0 : (0:ℚ) < q := by linarith
  have h2 := (log2Q_spec q hq0).2
  by_contra hneg
  push_neg at hneg
  have hle : log2Q q + 1 ≤ 0 := by omega
  have : (2:ℚ) ^ (log2Q q + 1) ≤ 1 :=
    zpow_le_one_of_nonpos₀ (by norm_num) hle
  linarith

theorem rnd_ge_pow (q : ℚ) (h : 1 ≤ q) : (2:ℚ) ^ log2Q q ≤ rnd q := by
  have hq0 : 0 < q := by linarith
  have hqne : q ≠ 0 := ne_of_gt hq0
  set e : ℤ := log2Q q with he
  set x : ℚ := q * 2 ^ (52 - e) with hx
  have hrnd : rnd q = (rne x : ℚ) * 2 ^ (e - 52) := by
    rw [rnd, if_neg hqne, if_pos hq0]
  have hx52 : (2:ℚ) ^ (52 : ℤ) ≤ x := by
    rw [hx]
    calc (2:ℚ) ^ (52 : ℤ) = 2 ^ e * 2 ^ (52 - e) := by
          rw [← zpow_add₀ (two_ne_zero : (2:ℚ) ≠ 0)]; ring_nf
      _ ≤ q * 2 ^ (52 - e) :=
          mul_le_mul_of_nonneg_right (log2Q_spec q hq0).1 (by positivity)
  have hrne : ((2:ℤ) ^ (52 : ℕ) : ℤ) ≤ rne x := by
    have h1 : (x : ℚ) - 1/2 ≤ (rne x : ℚ) := by
      have := (abs_le.mp (rne_abs_sub x)).1
      linarith
    have h2 : ((2:ℚ) ^ (52:ℤ) - 1 : ℚ) < (rne x : ℚ) := by linarith
    have h3 : (((2:ℤ) ^ (52:ℕ) - 1 : ℤ) : ℚ) < (rne x : ℚ) := by
      push_cast
      convert h2 using 2
      norm_num
    have h4 : ((2:ℤ) ^ (52:ℕ) - 1 : ℤ) < rne x := by exact_mod_cast h3
    omega
  rw [hrnd]
  calc (2:ℚ) ^ e = (2:ℚ) ^ (52:ℤ) * 2 ^ (e - 52) := by
        rw [← zpow_add₀ (two_ne_zero : (2:ℚ) ≠ 0)]; ring_nf
    _ ≤ (rne x : ℚ) * 2 ^ (e - 52) := by
        apply mul_le_mul_of_nonneg_right _ (by positivity)
        exact_mod_cast hrne

theorem rnd_zero : rnd 0 = 0 := by simp [rnd]

theorem rnd_one_le (q : ℚ) (h : 1 ≤ q) : 1 ≤ rnd q := by
  have h1 : (2:ℚ) ^ (0:ℤ) ≤ (2:ℚ) ^ log2Q q :=
    zpow_le_zpow_right₀ (by norm_num) (log2Q_nonneg q h)
  have h2 := rnd_ge_pow q h
  simp only [zpow_zero] at h1
  linarith

theorem rnd_pos (q : ℚ) (h : 1 ≤ q) : 0 < rnd q := by
  have := rnd_one_le q h
  linarith

theorem rnd_natCast (n : ℕ) (h : n < 2 ^ 53) : rnd (n : ℚ) = n := by
  rcases Nat.eq_zero_or_pos n with h0 | h1
  · subst h0
    simp [rnd]
  · have hq1 : (1:ℚ) ≤ (n : ℚ) := by exact_mod_cast h1
    have hq0 : (0:ℚ) < (n : ℚ) := by linarith
    have hqne : (n : ℚ) ≠ 0 := ne_of_gt hq0
    set e : ℤ := log2Q (n : ℚ) with he
    have he0 : 0 ≤ e := log2Q_nonneg _ hq1
    have he52 : e ≤ 52 := by
      by_contra hgt
      push_neg at hgt
      have h53 : (53:ℤ) ≤ e := by omega
      have hle : (2:ℚ) ^ (53 : ℤ) ≤ (2:ℚ) ^ e := zpow_le_zpow_right₀ (by norm_num) h53
      have hq53 : (2:ℚ) ^ (53:ℤ) ≤ (n : ℚ) := le_trans hle (log2Q_spec _ hq0).1
      have hn53 : ((2:ℕ) ^ (53:ℕ) : ℚ) ≤ (n : ℚ) := by
        convert hq53 using 1
        push_cast
        norm_num
      have : (2:ℕ) ^ 53 ≤ n := by exact_mod_cast hn53
      omega
    have hrnd : rnd (n : ℚ) = (rne ((n:ℚ) * 2 ^ (52 - e)) : ℚ) * 2 ^ (e - 52) := by
      rw [rnd, if_neg hqne, if_pos hq0]
    have hs : (0:ℤ) ≤ 52 - e := by omega
    have hz : ((2:ℚ) ^ ((52 - e).toNat : ℕ)) = (2:ℚ) ^ (52 - e : ℤ) := by
      rw [← zpow_natCast (2:ℚ) (52 - e).toNat, Int.toNat_of_nonneg hs]
    have hxint : (n:ℚ) * 2 ^ (52 - e) = ((n * 2 ^ (52 - e).toNat : ℕ) : ℚ) := by
      push_cast
      rw [hz]
    have hrne : rne ((n:ℚ) * 2 ^ (52 - e)) = (n * 2 ^ (52 - e).toNat : ℕ) := by
      rw [hxint]
      exact_mod_cast rne_intCast ((n * 2 ^ (52 - e).toNat : ℕ) : ℤ)
    rw [hrnd, hrne]
    have hcast : (((n * 2 ^ (52 - e).toNat : ℕ) : ℤ) : ℚ) = (n:ℚ) * 2 ^ (52 - e : ℤ) := by
      push_cast
      rw [hz]
    rw [hcast, mul_assoc, ← zpow_add₀ (two_ne_zero : (2:ℚ) ≠ 0)]
    norm_num

/-! ## The sampling index formula

`claimStep` and `claimIdx` restate, over the float model, the indices the
specification describes: `step = (n-1)/(k-1)` computed in float64 and
selected index `floor(i * step)` (the multiplication also in float64). -/

/-- The float64 value of `(n-1)/(k-1)`. -/
def claimStep (n k : ℕ) : ℚ := rnd (((n : ℚ) - 1) / ((k : ℚ) - 1))

/-- The selected original index for slot `i`: `floor(i * step)` in float64. -/
def claimIdx (n k i : ℕ) : ℕ := (⌊rnd ((i : ℚ) * claimStep n k)⌋).toNat

theorem claimStep_ge_one (n k : ℕ) (h2 : 2 ≤ k) (hk : k < n) :
    1 ≤ claimStep n k := by
  apply rnd_one_le
  rw [le_div_iff₀]
  · have : (k : ℚ) ≤ (n : ℚ) - 1 := by
      have : (k : ℚ) + 1 ≤ (n : ℚ) := by exact_mod_cast hk
      linarith
    linarith
  · have : (2 : ℚ) ≤ (k : ℚ) := by exact_mod_cast h2
    linarith

theorem claimStep_bounds (n k : ℕ) (h2 : 2 ≤ k) (hk : k < n) :
    (((n : ℚ) - 1) / ((k : ℚ) - 1)) * (1 - (2:ℚ) ^ (-53 : ℤ)) ≤ claimStep n k ∧
    claimStep n k ≤ (((n : ℚ) - 1) / ((k : ℚ) - 1)) * (1 + (2:ℚ) ^ (-53 : ℤ)) := by
  have hq1 : 1 ≤ ((n : ℚ) - 1) / ((k : ℚ) - 1) := by
    rw [le_div_iff₀]
    · have : (k : ℚ) + 1 ≤ (n : ℚ) := by exact_mod_cast hk
      linarith
    · have : (2 : ℚ) ≤ (k : ℚ) := by exact_mod_cast h2
      linarith
  exact ⟨rnd_ge_lower _ hq1, rnd_le_upper _ hq1⟩

theorem sample_floor_bounds (n k i : ℕ) (h2 : 2 ≤ k) (hk : k < n) (hn : n ≤ 2 ^ 50)
    (hi : i < k) :
    0 ≤ ⌊rnd ((i : ℚ) * claimStep n k)⌋ ∧ ⌊rnd ((i : ℚ) * claimStep n k)⌋ < (n : ℤ) ∧
      (i = k - 1 → (n : ℤ) - 2 ≤ ⌊rnd ((i : ℚ) * claimStep n k)⌋) := by
  have hε : (2:ℚ) ^ (-53 : ℤ) = 1 / 9007199254740992 := by norm_num
  set s := claimStep n k with hs
  have hs1 : 1 ≤ s := claimStep_ge_one n k h2 hk
  obtain ⟨hsl, hsu⟩ := claimStep_bounds n k h2 hk
  have hkQ : (2:ℚ) ≤ (k:ℚ) := by exact_mod_cast h2
  have hk1 : (0:ℚ) < (k:ℚ) - 1 := by linarith
  have hnk : (k:ℚ) + 1 ≤ (n:ℚ) := by exact_mod_cast hk
  have hq0mul : ((k:ℚ) - 1) * (((n : ℚ) - 1) / ((k : ℚ) - 1)) = (n:ℚ) - 1 := by
    field_simp
  have hnQ : (n:ℚ) ≤ 2 ^ 50 := by exact_mod_cast hn
  have hn0 : (0:ℤ) < (n:ℤ) := by
    have : 0 < n := by omega
    exact_mod_cast this
  rcases Nat.eq_zero_or_pos i with h0 | h1
  · subst h0
    have hz : ((0:ℕ):ℚ) * s = 0 := by simp
    rw [hz, rnd_zero, Int.floor_zero]
    refine ⟨le_refl 0, by omega, ?_⟩
    intro habs
    omega
  · have hiQ : (1:ℚ) ≤ (i:ℚ) := by exact_mod_cast h1
    have hik : (i:ℚ) ≤ (k:ℚ) - 1 := by
      have h' : i + 1 ≤ k := hi
      have : (i:ℚ) + 1 ≤ (k:ℚ) := by exact_mod_cast h'
      linarith
    have hx1 : 1 ≤ (i:ℚ) * s := by nlinarith
    have hxu : (i:ℚ) * s ≤ ((n:ℚ) - 1) * (1 + (2:ℚ) ^ (-53:ℤ)) := by
      calc (i:ℚ) * s ≤ ((k:ℚ) - 1) * s := by nlinarith
        _ ≤ ((k:ℚ) - 1) * ((((n : ℚ) - 1) / ((k : ℚ) - 1)) * (1 + (2:ℚ) ^ (-53:ℤ))) :=
            mul_le_mul_of_nonneg_left hsu (le_of_lt hk1)
        _ = ((n:ℚ) - 1) * (1 + (2:ℚ) ^ (-53:ℤ)) := by rw [← mul_assoc, hq0mul]
    have hpu : rnd ((i:ℚ) * s) ≤ ((n:ℚ) - 1) * (1 + (2:ℚ) ^ (-53:ℤ)) * (1 + (2:ℚ) ^ (-53:ℤ)) := by
      calc rnd ((i:ℚ) * s) ≤ ((i:ℚ) * s) * (1 + (2:ℚ) ^ (-53:ℤ)) := rnd_le_upper _ hx1
        _ ≤ ((n:ℚ) - 1) * (1 + (2:ℚ) ^ (-53:ℤ)) * (1 + (2:ℚ) ^ (-53:ℤ)) := by
            apply mul_le_mul_of_nonneg_right hxu
            rw [hε]; norm_num
    have hplt : rnd ((i:ℚ) * s) < (n:ℚ) := by
      rw [hε] at hpu
      nlinarith [hpu, hnQ, hnk, hkQ]
    have hp0 : 0 < rnd ((i:ℚ) * s) := rnd_pos _ hx1
    have hfl0 : 0 ≤ ⌊rnd ((i:ℚ) * s)⌋ := Int.floor_nonneg.mpr hp0.le
    have hfln : ⌊rnd ((i:ℚ) * s)⌋ < (n:ℤ) := by
      apply Int.floor_lt.mpr
      push_cast
      exact hplt
    refine ⟨hfl0, hfln, ?_⟩
    intro hieq
    have hiQ' : (i:ℚ) = (k:ℚ) - 1 := by
      subst hieq
      push_cast [Nat.cast_sub (by omega : 1 ≤ k)]
      ring
    have hxl : ((n:ℚ) - 1) * (1 - (2:ℚ) ^ (-53:ℤ)) ≤ (i:ℚ) * s := by
      rw [hiQ']
      calc ((n:ℚ) - 1) * (1 - (2:ℚ) ^ (-53:ℤ))
          = ((k:ℚ) - 1) * ((((n : ℚ) - 1) / ((k : ℚ) - 1)) * (1 - (2:ℚ) ^ (-53:ℤ))) := by
            rw [← mul_assoc, hq0mul]
        _ ≤ ((k:ℚ) - 1) * s := mul_le_mul_of_nonneg_left hsl (le_of_lt hk1)
    have hpl : ((i:ℚ) * s) * (1 - (2:ℚ) ^ (-53:ℤ)) ≤ rnd ((i:ℚ) * s) :=
      rnd_ge_lower _ hx1
    have hgt : ((n:ℚ) - 2) < rnd ((i:ℚ) * s) := by
      rw [hε] at hxl hpl
      nlinarith [hxl, hpl, hnQ, hnk, hkQ, hx1]
    apply Int.le_floor.mpr
    push_cast
    linarith

theorem sampleLoop_eq_map (shots : List Screenshot) (step : GoFloat) (g : ℕ → Screenshot) :
    ∀ l : List ℕ,
      (∀ i ∈ l, ∃ idx : ℤ, goToInt (goMul (goOfInt (i : ℤ)) step) = some idx ∧
        0 ≤ idx ∧ shots[idx.toNat]? = some (g i)) →
      sampleLoop shots step l = some (l.map g) := by
  intro l
  induction l with
  | nil => intro _; rfl
  | cons i rest ih =>
      intro h
      obtain ⟨idx, hidx, hnn, hget⟩ := h i (List.mem_cons_self i rest)
      have hrest := ih (fun j hj => h j (List.mem_cons_of_mem i hj))
      simp only [sampleLoop, hidx, hget, hrest, List.map_cons]
      rw [if_neg (by omega)]

theorem goStep_eq_claimStep (n k : ℕ) (h2 : 2 ≤ k) (hk : k < n) (hn : n ≤ 2 ^ 50) :
    goDiv (goOfInt ((n : ℤ) - 1)) (goOfInt ((k : ℤ) - 1)) = .finite (claimStep n k) := by
  have hncast : (((n : ℤ) - 1 : ℤ) : ℚ) = ((n - 1 : ℕ) : ℚ) := by
    push_cast [Nat.cast_sub (by omega : 1 ≤ n)]
    ring
  have hkcast : (((k : ℤ) - 1 : ℤ) : ℚ) = ((k - 1 : ℕ) : ℚ) := by
    push_cast [Nat.cast_sub (by omega : 1 ≤ k)]
    ring
  have hrnd_n : rnd (((n : ℤ) - 1 : ℤ) : ℚ) = ((n - 1 : ℕ) : ℚ) := by
    rw [hncast]
    exact rnd_natCast (n - 1) (by omega)
  have hrnd_k : rnd (((k : ℤ) - 1 : ℤ) : ℚ) = ((k - 1 : ℕ) : ℚ) := by
    rw [hkcast]
    exact rnd_natCast (k - 1) (by omega)
  have hkne : ((k - 1 : ℕ) : ℚ) ≠ 0 := by
    have : 1 ≤ k - 1 := by omega
    have : (1:ℚ) ≤ ((k - 1 : ℕ) : ℚ) := by exact_mod_cast this
    linarith
  simp only [goOfInt, goDiv, hrnd_n, hrnd_k, if_neg hkne]
  have : (((n - 1 : ℕ) : ℚ)) / (((k - 1 : ℕ) : ℚ)) = ((n : ℚ) - 1) / ((k : ℚ) - 1) := by
    rw [Nat.cast_sub (by omega : 1 ≤ n), Nat.cast_sub (by omega : 1 ≤ k)]
    push_cast
    ring_nf
  rw [this]
  rfl

theorem sample_eq_claim (shots : List Screenshot) (k : ℕ) (h2 : 2 ≤ k)
    (hk : k < shots.length) (hn : shots.length ≤ 2 ^ 50) :
    sampleScreenshots shots (k : ℤ) =
      some ((List.range k).map (fun i => shots.getD (claimIdx shots.length k i) default)) := by
  set n := shots.length with hng
  have hcond : ¬ ((n : ℤ) ≤ (k : ℤ)) := by
    push_neg
    exact_mod_cast hk
  rw [sampleScreenshots, if_neg hcond]
  have htn : ((k : ℤ)).toNat = k := Int.toNat_natCast k
  have hstep : goDiv (goOfInt ((n : ℤ) - 1)) (goOfInt ((k : ℤ) - 1)) =
      .finite (claimStep n k) := goStep_eq_claimStep n k h2 hk hn
  rw [htn, hstep]
  apply sampleLoop_eq_map
  intro i hi
  have hik : i < k := List.mem_range.mp hi
  obtain ⟨hfl0, hfln, _⟩ := sample_floor_bounds n k i h2 hk hn hik
  have hofi : goOfInt (i : ℤ) = .finite ((i : ℚ)) := by
    simp only [goOfInt, Int.cast_natCast]
    rw [rnd_natCast i (by omega)]
  refine ⟨⌊rnd ((i : ℚ) * claimStep n k)⌋, ?_, hfl0, ?_⟩
  · rw [hofi]
    simp only [goMul, goToInt]
    have hp0 : (0:ℚ) ≤ rnd ((i : ℚ) * claimStep n k) := by
      have := Int.floor_le (rnd ((i : ℚ) * claimStep n k))
      have h0 : (0:ℚ) ≤ (⌊rnd ((i : ℚ) * claimStep n k)⌋ : ℚ) := by exact_mod_cast hfl0
      linarith
    rw [if_pos hp0, if_pos]
    constructor
    · omega
    · have hn63 : (n:ℤ) ≤ 2 ^ 50 := by exact_mod_cast hn
      omega
  · have hlt : ⌊rnd ((i : ℚ) * claimStep n k)⌋.toNat < n := by omega
    have : claimIdx n k i = ⌊rnd ((i : ℚ) * claimStep n k)⌋.toNat := rfl
    rw [← this] at hlt ⊢
    rw [List.getElem?_eq_getElem hlt, List.getD_eq_getElem shots default hlt]

theorem claimIdx_zero (n k : ℕ) : claimIdx n k 0 = 0 := by
  simp [claimIdx, rnd_zero]

theorem claimIdx_last_exact (n k : ℕ) (h2 : 2 ≤ k) (hk : k < n) (hn : n ≤ 2 ^ 50)
    (hdvd : (k - 1) ∣ (n - 1)) : claimIdx n k (k - 1) = n - 1 := by
  obtain ⟨m, hm⟩ := hdvd
  have hm1 : 1 ≤ m := by
    rcases Nat.eq_zero_or_pos m with h0 | h1
    · subst h0
      omega
    · exact h1
  have hmle : m ≤ n - 1 := by
    calc m ≤ (k - 1) * m := Nat.le_mul_of_pos_left m (by omega)
      _ = n - 1 := hm.symm
  have hkne : ((k:ℚ) - 1) ≠ 0 := by
    have : (2:ℚ) ≤ (k:ℚ) := by exact_mod_cast h2
    linarith
  have hq0 : ((n:ℚ) - 1) / ((k:ℚ) - 1) = (m : ℚ) := by
    have hcast : (n:ℚ) - 1 = ((k:ℚ) - 1) * m := by
      have hmc : ((n - 1 : ℕ) : ℚ) = (((k - 1) * m : ℕ) : ℚ) := by exact_mod_cast hm
      have h1 : ((n:ℚ) - 1) = ((n - 1 : ℕ) : ℚ) := by
        push_cast [Nat.cast_sub (show 1 ≤ n by omega)]
        ring
      have h2' : (((k - 1) * m : ℕ) : ℚ) = ((k:ℚ) - 1) * m := by
        push_cast [Nat.cast_sub (show 1 ≤ k by omega)]
        ring
      rw [h1, hmc, h2']
    rw [hcast, mul_div_cancel_left₀ _ hkne]
  have hstep : claimStep n k = (m:ℚ) := by
    rw [claimStep, hq0]
    exact rnd_natCast m (by omega)
  have hcast2 : ((k - 1 : ℕ) : ℚ) * (m:ℚ) = ((n - 1 : ℕ) : ℚ) := by
    exact_mod_cast congrArg (fun z : ℕ => (z : ℚ)) hm.symm
  rw [claimIdx, hstep, hcast2, rnd_natCast (n - 1) (by omega), Int.floor_natCast,
    Int.toNat_natCast]

/-- **C1**: for every record list of machine-realizable length `n ≤ 2^50`
and every `k` with `2 ≤ k < n`, `sampleScreenshots` returns exactly the
records at indices `floor(i * step)` for `i = 0..k-1`, with
`step = (n-1)/(k-1)` computed in float64 arithmetic (`claimStep`/`claimIdx`
spell out that formula); the witness instantiates `n = 12`, `k = 5` and
obtains the original indices `[0, 2, 5, 8, 11]`. -/
theorem sampleScreenshots_floor_index_formula (shots : List Screenshot) (k : ℕ)
    (h2 : 2 ≤ k) (hk : k < shots.length) (hn : shots.length ≤ 2 ^ 50) :
    sampleScreenshots shots (k : ℤ) =
      some ((List.range k).map (fun i => shots.getD (claimIdx shots.length k i) default)) :=
  sample_eq_claim shots k h2 hk hn

set_option maxRecDepth 40000 in
/-- Witness for C1 at `n = 12`, `k = 5`: the sampled records are the ones
at original indices `[0, 2, 5, 8, 11]`. -/
theorem sampleScreenshots_floor_index_formula_witness :
    2 ≤ 5 ∧ 5 < (testShots 12).length ∧ (testShots 12).length ≤ 2 ^ 50 ∧
      (List.range 5).map (fun i => claimIdx 12 5 i) = [0, 2, 5, 8, 11] ∧
      sampleScreenshots (testShots 12) 5 =
        some [⟨[], 0, [], 0, []⟩, ⟨[], 2, [], 0, []⟩, ⟨[], 5, [], 0, []⟩,
              ⟨[], 8, [], 0, []⟩, ⟨[], 11, [], 0, []⟩] := by
  have hlen : (testShots 12).length = 12 := by rfl
  refine ⟨by norm_num, by rw [hlen]; norm_num, by rw [hlen]; norm_num,
    by with_unfolding_all rfl, ?_⟩
  have h := sampleScreenshots_floor_index_formula (testShots 12) 5 (by norm_num)
    (by rw [hlen]; norm_num) (by rw [hlen]; norm_num)
  have hc : ((5:ℕ):ℤ) = (5:ℤ) := by norm_num
  rw [hc] at h
  rw [h]
  with_unfolding_all rfl

/-- **C9**: whenever the list is no longer than the requested sample count,
`sampleScreenshots` is the identity: all records, original order, unchanged. -/
theorem sampleScreenshots_id_of_le (shots : List Screenshot) (k : ℤ)
    (h : (shots.length : ℤ) ≤ k) : sampleScreenshots shots k = some shots := by
  rw [sampleScreenshots, if_pos h]

/-- Witness for C9 at a 3-record list and `k = 5`. -/
theorem sampleScreenshots_id_of_le_witness :
    ((testShots 3).length : ℤ) ≤ 5 ∧ sampleScreenshots (testShots 3) 5 = some (testShots 3) := by
  have hlen : (testShots 3).length = 3 := by rfl
  have hle : ((testShots 3).length : ℤ) ≤ 5 := by rw [hlen]; norm_num
  exact ⟨hle, sampleScreenshots_id_of_le (testShots 3) 5 hle⟩

set_option maxRecDepth 40000 in
/-- **C3** (code bug): with more than one record and `k = 1` the code has no
single-element edge case: `step = (len-1)/(1-1)` divides by zero giving
`+Inf`, then `float64(0) * Inf = NaN` and `int(NaN)` is an invalid index
(implementation-defined, `minInt64` on amd64), so indexing panics — the
first record is NOT returned. `none` models that panic. -/
theorem sampleScreenshots_one_panics : sampleScreenshots (testShots 2) 1 = none := by
  with_unfolding_all rfl

theorem map_range_head {α : Type} (f : ℕ → α) (k : ℕ) (h : 1 ≤ k) :
    ((List.range k).map f).head? = some (f 0) := by
  obtain ⟨m, rfl⟩ : ∃ m, k = m + 1 := ⟨k - 1, by omega⟩
  rw [List.range_succ_eq_map, List.map_cons, List.head?_cons]

theorem map_range_getLast {α : Type} (f : ℕ → α) (k : ℕ) (h : 1 ≤ k) :
    ((List.range k).map f).getLast? = some (f (k - 1)) := by
  obtain ⟨m, rfl⟩ : ∃ m, k = m + 1 := ⟨k - 1, by omega⟩
  rw [List.range_succ, List.map_append, List.map_cons, List.map_nil]
  simpa using List.getLast?_concat _

/-- **C5** (amended): for `2 ≤ k < n = len(records) ≤ 2^50` the sample always
includes the FIRST record; the LAST selected index is `n-1` or `n-2` — it is
exactly `n-1` whenever `(k-1)` divides `(n-1)` (step exactly representable),
but float64 rounding of `(n-1)/(k-1)` can drop it to `n-2` (see the
counterexample at `n = 16`, `k = 12`). -/
theorem sampleScreenshots_first_and_last (shots : List Screenshot) (k : ℕ)
    (h2 : 2 ≤ k) (hk : k < shots.length) (hn : shots.length ≤ 2 ^ 50) :
    ∃ l, sampleScreenshots shots (k : ℤ) = some l ∧
      l.head? = some (shots.getD 0 default) ∧
      ∃ j, (j = shots.length - 1 ∨ j = shots.length - 2) ∧
        l.getLast? = some (shots.getD j default) ∧
        ((k - 1) ∣ (shots.length - 1) → j = shots.length - 1) := by
  refine ⟨_, sample_eq_claim shots k h2 hk hn, ?_, ?_⟩
  · rw [map_range_head _ k (by omega), claimIdx_zero]
  · refine ⟨claimIdx shots.length k (k - 1), ?_, ?_, ?_⟩
    · obtain ⟨hfl0, hfln, hlast⟩ :=
        sample_floor_bounds shots.length k (k - 1) h2 hk hn (by omega)
      have hge := hlast rfl
      have htn := Int.toNat_of_nonneg hfl0
      have : claimIdx shots.length k (k - 1) =
          (⌊rnd (((k - 1 : ℕ) : ℚ) * claimStep shots.length k)⌋).toNat := rfl
      omega
    · exact map_range_getLast _ k (by omega)
    · intro hd
      exact claimIdx_last_exact shots.length k h2 hk hn hd

/-- Witness for the amended C5 at `n = 10`, `k = 5` (step `9/4` not an
integer but exactly representable; first and last both included). -/
theorem sampleScreenshots_first_and_last_witness :
    2 ≤ 5 ∧ 5 < (testShots 10).length ∧ (testShots 10).length ≤ 2 ^ 50 ∧
      ∃ l, sampleScreenshots (testShots 10) ((5 : ℕ) : ℤ) = some l ∧
        l.head? = some ((testShots 10).getD 0 default) ∧
        ∃ j, (j = (testShots 10).length - 1 ∨ j = (testShots 10).length - 2) ∧
          l.getLast? = some ((testShots 10).getD j default) ∧
          ((5 - 1) ∣ ((testShots 10).length - 1) → j = (testShots 10).length - 1) := by
  have hlen : (testShots 10).length = 10 := by rfl
  exact ⟨by norm_num, by rw [hlen]; norm_num, by rw [hlen]; norm_num,
    sampleScreenshots_first_and_last (testShots 10) 5 (by norm_num)
      (by rw [hlen]; norm_num) (by rw [hlen]; norm_num)⟩

set_option maxRecDepth 40000 in
/-- Counterexample to C5 as stated: with 16 records and `k = 12`
(`2 ≤ 12 < 16`), the float64 step `15/11` rounds down, the last selected
index is 14, and the last record (monitor 15) is absent from the output. -/
theorem sampleScreenshots_drops_last_16_12 :
    sampleScreenshots (testShots 16) 12 =
      some (List.map (fun i : ℕ => (⟨[], (i : ℤ), [], 0, []⟩ : Screenshot))
        [0, 1, 2, 4, 5, 6, 8, 9, 10, 12, 13, 14]) ∧
    (testShots 16).getLast? = some ⟨[], 15, [], 0, []⟩ ∧
    (List.map (fun i : ℕ => (⟨[], (i : ℤ), [], 0, []⟩ : Screenshot))
        [0, 1, 2, 4, 5, 6, 8, 9, 10, 12, 13, 14]).contains ⟨[], 15, [], 0, []⟩ = false := by
  refine ⟨?_, ?_, ?_⟩ <;> with_unfolding_all rfl

/-! ## `setupMonitors` (main.go lines 94-139)

```go
t.MonitorsToCapture = []int{}
switch t.MonitorsConfig {
case "all":
    for i := 0; i < numMonitors; i++ {
        t.MonitorsToCapture = append(t.MonitorsToCapture, i)
    }
case "primary":
    t.MonitorsToCapture = []int{0}
default:
    parts := strings.Split(t.MonitorsConfig, ",")
    for _, p := range parts {
        num, err := strconv.Atoi(strings.TrimSpace(p))
        if err == nil && num >= 1 && num <= numMonitors {
            t.MonitorsToCapture = append(t.MonitorsToCapture, num-1)
        }
    }
    if len(t.MonitorsToCapture) == 0 {
        fmt.Printf("⚠️  Invalid monitor config ...")
        t.MonitorsToCapture = []int{0}
    }
}
```

Strings are `List Char`; the returned `Bool` records whether the
invalid-config warning was printed. -/

/-- Go `unicode.IsSpace` (the code points `strings.TrimSpace` strips). -/
def isGoSpace (c : Char) : Bool :=
  decide (c.toNat ∈ [9, 10, 11, 12, 13, 32, 133, 160, 5760, 8232, 8233, 8239, 8287, 12288] ∨
    (8192 ≤ c.toNat ∧ c.toNat ≤ 8202))

/-- Go `strings.TrimSpace`. -/
def trimSpace (s : List Char) : List Char :=
  ((s.dropWhile isGoSpace).reverse.dropWhile isGoSpace).reverse

/-- Go `strings.Split(s, ",")`: splits around each comma;
`Split("", ",") = [""]`. -/
def splitComma (s : List Char) : List (List Char) :=
  s.foldr (fun c acc =>
    if c = ',' then [] :: acc
    else
      match acc with
      | h :: t => (c :: h) :: t
      | [] => [[c]]) [[]]

/-- Decimal digit-string value (`none` when empty or any non-digit). -/
def digitsVal (l : List Char) : Option ℕ :=
  if l = [] then none
  else
    l.foldl (fun acc c =>
      match acc with
      | none => none
      | some v => if 48 ≤ c.toNat ∧ c.toNat ≤ 57 then some (v * 10 + (c.toNat - 48)) else none)
      (some 0)

/-- Go `strconv.Atoi`: optional sign, decimal digits, int64 range. -/
def atoi (s : List Char) : Option ℤ :=
  match s with
  | '+' :: rest => (digitsVal rest).bind (fun v =>
      if (v : ℤ) ≤ 2 ^ 63 - 1 then some (v : ℤ) else none)
  | '-' :: rest => (digitsVal rest).bind (fun v =>
      if (v : ℤ) ≤ 2 ^ 63 then some (-(v : ℤ)) else none)
  | _ => (digitsVal s).bind (fun v =>
      if (v : ℤ) ≤ 2 ^ 63 - 1 then some (v : ℤ) else none)

/-- Monitor-specification resolution, translated from `setupMonitors`.
Returns the 0-based display indices to capture and whether the
invalid-config warning was surfaced. -/
def setupMonitors (cfg : List Char) (numMonitors : ℕ) : List ℤ × Bool :=
  if cfg = ("all").toList then (List.map (fun i : ℕ => (i : ℤ)) (List.range numMonitors), false)
  else if cfg = ("primary").toList then ([0], false)
  else
    let kept := (splitComma cfg).filterMap (fun p =>
      match atoi (trimSpace p) with
      | some num => if 1 ≤ num ∧ num ≤ (numMonitors : ℤ) then some (num - 1) else none
      | none => none)
    if kept = [] then ([0], true) else (kept, false)

/-- The comma-list selection pipeline exactly as the specification words
it: split on commas, trim whitespace on each part, keep the parts that
parse as an integer in `[1, numDisplays]`, convert kept values to 0-based,
preserving user order and duplicates. -/
def specKeptIndices (cfg : List Char) (numDisplays : ℕ) : List ℤ :=
  (splitComma cfg).filterMap (fun part =>
    (atoi (trimSpace part)).bind (fun v =>
      if 1 ≤ v ∧ v ≤ (numDisplays : ℤ) then some (v - 1) else none))

/-- **C6**: for a spec string that is neither `"all"` nor `"primary"`,
`setupMonitors` computes exactly the specification's comma-list pipeline
(`specKeptIndices`: split on commas, trim whitespace, keep parts parsing
to an integer in `[1, numDisplays]`, 0-based, order preserved, duplicates
kept), provided at least one part is valid; e.g. `resolve("1,2",3) = [0,1]`
(witness). -/
theorem setupMonitors_comma_list (cfg : List Char) (n : ℕ)
    (hall : cfg ≠ ("all").toList) (hpr : cfg ≠ ("primary").toList)
    (hne : specKeptIndices cfg n ≠ []) :
    setupMonitors cfg n = (specKeptIndices cfg n, false) := by
  have hkept : (splitComma cfg).filterMap (fun p =>
      match atoi (trimSpace p) with
      | some num => if 1 ≤ num ∧ num ≤ (n : ℤ) then some (num - 1) else none
      | none => none) = specKeptIndices cfg n := by
    simp only [specKeptIndices]
    congr 1
    funext p
    cases atoi (trimSpace p) <;> rfl
  rw [setupMonitors, if_neg hall, if_neg hpr]
  simp only [hkept, if_neg hne]

/-- Witness for C6: `resolve("1,2", 3) = [0, 1]`, no warning. -/
theorem setupMonitors_comma_list_witness :
    ("1,2").toList ≠ ("all").toList ∧ ("1,2").toList ≠ ("primary").toList ∧
      specKeptIndices (("1,2").toList) 3 ≠ [] ∧
      setupMonitors (("1,2").toList) 3 = ([0, 1], false) := by
  refine ⟨by decide, by decide, by decide, ?_⟩
  rw [setupMonitors_comma_list (("1,2").toList) 3 (by decide) (by decide) (by decide)]
  decide

/-- **C7**: when the comma-list parse keeps no part (all parts unparsable
or out of range), `setupMonitors` falls back to the primary monitor `[0]`
and surfaces the warning diagnostic (no fatal error: the function still
returns normally). -/
theorem setupMonitors_fallback (cfg : List Char) (n : ℕ)
    (hall : cfg ≠ ("all").toList) (hpr : cfg ≠ ("primary").toList)
    (hempty : specKeptIndices cfg n = []) :
    setupMonitors cfg n = ([0], true) := by
  have hkept : (splitComma cfg).filterMap (fun p =>
      match atoi (trimSpace p) with
      | some num => if 1 ≤ num ∧ num ≤ (n : ℤ) then some (num - 1) else none
      | none => none) = specKeptIndices cfg n := by
    simp only [specKeptIndices]
    congr 1
    funext p
    cases atoi (trimSpace p) <;> rfl
  rw [setupMonitors, if_neg hall, if_neg hpr]
  simp only [hkept, if_pos hempty]

/-- Witness for C7 at the spec's two examples: `resolve("abc", 3)` and the
out-of-range `resolve("5", 3)` both fall back to `[0]` with a warning. -/
theorem setupMonitors_fallback_witness :
    (("abc").toList ≠ ("all").toList ∧ specKeptIndices (("abc").toList) 3 = [] ∧
      setupMonitors (("abc").toList) 3 = ([0], true)) ∧
    (("5").toList ≠ ("all").toList ∧ specKeptIndices (("5").toList) 3 = [] ∧
      setupMonitors (("5").toList) 3 = ([0], true)) :=
  ⟨⟨by decide, by decide,
      setupMonitors_fallback (("abc").toList) 3 (by decide) (by decide) (by decide)⟩,
    ⟨by decide, by decide,
      setupMonitors_fallback (("5").toList) 3 (by decide) (by decide) (by decide)⟩⟩

/-- **C10** (invariant): for every spec string and `numDisplays ≥ 1`, the
resolved monitor list is non-empty and every resolved index is a valid
0-based display index (`0 ≤ i < numDisplays`), on all four paths
("all", "primary", comma list, fallback). -/
theorem setupMonitors_always_valid (cfg : List Char) (n : ℕ) (h : 1 ≤ n) :
    (setupMonitors cfg n).1 ≠ [] ∧
      ∀ i ∈ (setupMonitors cfg n).1, 0 ≤ i ∧ i < (n : ℤ) := by
  by_cases hall : cfg = ("all").toList
  · rw [setupMonitors, if_pos hall]
    dsimp only
    constructor
    · have hlen : (List.map (fun i : ℕ => (i : ℤ)) (List.range n)).length = n := by
        rw [List.length_map, List.length_range]
      intro habs
      rw [habs] at hlen
      simp only [List.length_nil] at hlen
      omega
    · intro i hi
      obtain ⟨j, hj, rfl⟩ := List.mem_map.mp hi
      have := List.mem_range.mp hj
      constructor
      · exact_mod_cast Nat.zero_le j
      · exact_mod_cast this
  · by_cases hpr : cfg = ("primary").toList
    · rw [setupMonitors, if_neg hall, if_pos hpr]
      dsimp only
      refine ⟨by simp, ?_⟩
      intro i hi
      simp only [List.mem_singleton] at hi
      subst hi
      constructor
      · norm_num
      · exact_mod_cast h
    · by_cases hne : specKeptIndices cfg n = []
      · rw [setupMonitors_fallback cfg n hall hpr hne]
        refine ⟨by simp, ?_⟩
        intro i hi
        simp only [List.mem_singleton] at hi
        subst hi
        constructor
        · norm_num
        · exact_mod_cast h
      · rw [setupMonitors_comma_list cfg n hall hpr hne]
        refine ⟨hne, ?_⟩
        intro i hi
        obtain ⟨part, hpart, hf⟩ := List.mem_filterMap.mp hi
        rcases hatoi : atoi (trimSpace part) with _ | num
        · rw [hatoi] at hf
          simp at hf
        · rw [hatoi] at hf
          have hf' : (if 1 ≤ num ∧ num ≤ (n : ℤ) then some (num - 1) else none) = some i := hf
          by_cases hcond : 1 ≤ num ∧ num ≤ (n : ℤ)
          · rw [if_pos hcond] at hf'
            have := Option.some_injective _ hf'
            omega
          · rw [if_neg hcond] at hf'
            simp at hf' 

/-- Witness for C10 on a malformed spec with one display. -/
theorem setupMonitors_always_valid_witness :
    1 ≤ 1 ∧ (setupMonitors (("junk").toList) 1).1 ≠ [] ∧
      ∀ i ∈ (setupMonitors (("junk").toList) 1).1, 0 ≤ i ∧ i < ((1:ℕ) : ℤ) :=
  ⟨le_refl 1, (setupMonitors_always_valid (("junk").toList) 1 (le_refl 1)).1,
    (setupMonitors_always_valid (("junk").toList) 1 (le_refl 1)).2⟩

/-! ## `TaskTracker`, `StopCapture` (lines 173-183) and
`captureScreenshot` (lines 186-243)

Wall-clock times are rational seconds; the capture / file-create / PNG-encode
collaborators are an oracle `ℤ → CaptureOutcome` per tick. -/

/-- The Go `TaskTracker` struct. -/
structure TaskTracker where
  OutputDir : List Char
  SessionID : List Char
  SessionDir : List Char
  TaskName : List Char
  Screenshots : List Screenshot
  IsCapturing : Bool
  CaptureInterval : ℚ
  MonitorsConfig : List Char
  MonitorsToCapture : List ℤ
  StartTime : ℚ
  EndTime : ℚ
  AnthropicAPIKey : List Char
deriving DecidableEq, Repr, Inhabited

/-- The Go `SessionMetadata` struct (the value `saveMetadata` writes to
`metadata.json`; the RFC3339 rendering of the two times is the clock
collaborator's string encoding and is kept as the time value itself). -/
structure SessionMetadata where
  SessionID : List Char
  TaskName : List Char
  StartTime : ℚ
  EndTime : ℚ
  DurationSeconds : ℚ
  ScreenshotCount : ℤ
  Screenshots : List Screenshot
deriving DecidableEq, Repr

/-- `saveMetadata` (lines 246-264): the metadata value flushed to disk. -/
def saveMetadata (t : TaskTracker) : SessionMetadata :=
  { SessionID := t.SessionID
    TaskName := t.TaskName
    StartTime := t.StartTime
    EndTime := t.EndTime
    DurationSeconds := t.EndTime - t.StartTime
    ScreenshotCount := (t.Screenshots.length : ℤ)
    Screenshots := t.Screenshots }

/-- `StopCapture` (lines 173-183): unconditionally clears the capturing
flag, stamps `EndTime = now`, and performs a metadata write. The returned
`SessionMetadata` is the write this call performs. -/
def StopCapture (t : TaskTracker) (now : ℚ) : TaskTracker × SessionMetadata :=
  let t' := { t with IsCapturing := false, EndTime := now }
  (t', saveMetadata t')

/-- Outcome of one monitor's capture attempt within a tick: the
`screenshot.CaptureDisplay` / `os.Create` / `png.Encode` collaborators. -/
inductive CaptureOutcome where
  | captureFail
  | createFail
  | encodeFail
  | ok (width height : ℕ)
deriving DecidableEq, Repr

/-- The error `captureScreenshot` returns early with. -/
inductive CaptureErr where
  | createFailed
  | encodeFailed
deriving DecidableEq, Repr

/-- Environment of one tick: per-display outcomes and the clock values the
tick reads (`ts` = the `150405` filename stamp, `tsAbs` = the RFC3339
record timestamp, `now` = wall clock for `RelativeTime`). -/
structure TickCtx where
  outcome : ℤ → CaptureOutcome
  ts : List Char
  tsAbs : List Char
  now : ℚ

/-- Decimal rendering of an integer (for `fmt.Sprintf("%d", ...)`). -/
def intToStr (i : ℤ) : List Char :=
  if i < 0 then '-' :: Nat.toDigits 10 (-i).toNat else Nat.toDigits 10 i.toNat

/-- `fmt.Sprintf("%dx%d", w, h)`. -/
def resolutionStr (w h : ℕ) : List Char :=
  Nat.toDigits 10 w ++ ('x' :: Nat.toDigits 10 h)

/-- The per-tick filename (lines 199-205). -/
def screenshotFilename (multi : Bool) (monitorIdx : ℤ) (ts : List Char) : List Char :=
  if multi then
    ("screen_m").toList ++ intToStr (monitorIdx + 1) ++ ('_' :: ts) ++ (".png").toList
  else
    ("screen_").toList ++ ts ++ (".png").toList

/-- `filepath.Join`. -/
def joinPath (a b : List Char) : List Char := a ++ ('/' :: b)

/-- The `for _, monitorIdx := range t.MonitorsToCapture` body of
`captureScreenshot`: a capture failure prints and `continue`s; a create or
encode failure `return`s an error immediately (records appended so far are
kept); success appends a record. -/
def captureLoop (ctx : TickCtx) (multi : Bool) (dir : List Char) (rel : ℚ) :
    List ℤ → List Screenshot → List Screenshot × Option CaptureErr
  | [], acc => (acc, none)
  | m :: rest, acc =>
      match ctx.outcome m with
      | .captureFail => captureLoop ctx multi dir rel rest acc
      | .createFail => (acc, some .createFailed)
      | .encodeFail => (acc, some .encodeFailed)
      | .ok w h =>
          captureLoop ctx multi dir rel rest
            (acc ++ [{ Path := joinPath dir (screenshotFilename multi m ctx.ts)
                       Monitor := m + 1
                       Timestamp := ctx.tsAbs
                       RelativeTime := rel
                       Resolution := resolutionStr w h }])

/-- `captureScreenshot` (lines 186-243). -/
def captureScreenshot (t : TaskTracker) (ctx : TickCtx) : TaskTracker × Option CaptureErr :=
  match captureLoop ctx (decide (1 < t.MonitorsToCapture.length)) t.SessionDir
      (ctx.now - t.StartTime) t.MonitorsToCapture t.Screenshots with
  | (shots, err) => ({ t with Screenshots := shots }, err)

/-- The `StartCapture` loop (lines 159-167): every tick calls
`t.captureScreenshot()` and DISCARDS its error, so the session processes
every tick regardless of per-tick failures. -/
def runTicks (t : TaskTracker) : List TickCtx → TaskTracker
  | [] => t
  | c :: rest => runTicks (captureScreenshot t c).1 rest

/-- A concrete idle tracker used by counterexamples and witnesses. -/
def tr0 : TaskTracker :=
  { OutputDir := [], SessionID := [], SessionDir := [], TaskName := []
    Screenshots := [], IsCapturing := true, CaptureInterval := 30
    MonitorsConfig := [], MonitorsToCapture := [0], StartTime := 0
    EndTime := 0, AnthropicAPIKey := [] }

/-- Counterexample to C2 as stated: `StopCapture` has no guard, so a second
call at a later time (here 9 s after a first stop at 5 s) re-stamps
`EndTime` with the new time and performs a second metadata write with a
different duration — the first call is not the only one with effect. -/
theorem stopCapture_second_call_restamps :
    (StopCapture tr0 5).1.EndTime = 5 ∧
    (StopCapture (StopCapture tr0 5).1 9).1.EndTime = 9 ∧
    (StopCapture tr0 5).2.DurationSeconds = 5 ∧
    (StopCapture (StopCapture tr0 5).1 9).2.DurationSeconds = 9 ∧
    (StopCapture (StopCapture tr0 5).1 9).1.EndTime ≠ (StopCapture tr0 5).1.EndTime ∧
    (StopCapture (StopCapture tr0 5).1 9).2.DurationSeconds ≠
      (StopCapture tr0 5).2.DurationSeconds := by
  have h1 : (StopCapture tr0 5).1.EndTime = 5 := by with_unfolding_all rfl
  have h2 : (StopCapture (StopCapture tr0 5).1 9).1.EndTime = 9 := by with_unfolding_all rfl
  have h3 : (StopCapture tr0 5).2.DurationSeconds = 5 := by with_unfolding_all rfl
  have h4 : (StopCapture (StopCapture tr0 5).1 9).2.DurationSeconds = 9 := by
    with_unfolding_all rfl
  refine ⟨h1, h2, h3, h4, ?_, ?_⟩
  · rw [h1, h2]; norm_num
  · rw [h3, h4]; norm_num

/-- **C2** (amended): every call to `stop()` stamps `endTime` with the
current clock and performs a metadata write whose duration is measured from
the session start; a repeated call is a no-op (identical state and
identical write) only when the clock has not advanced — a later repeated
call overwrites `endTime` and writes metadata with the new duration. -/
theorem stopCapture_behavior (t : TaskTracker) (t1 t2 : ℚ) :
    (StopCapture (StopCapture t t1).1 t2).1.EndTime = t2 ∧
    (StopCapture (StopCapture t t1).1 t2).1.IsCapturing = false ∧
    (StopCapture (StopCapture t t1).1 t2).2.DurationSeconds = t2 - t.StartTime ∧
    (t2 = t1 → StopCapture (StopCapture t t1).1 t2 = StopCapture t t1) := by
  refine ⟨rfl, rfl, rfl, ?_⟩
  intro h
  subst h
  rfl

/-- Witness for the amended C2: a repeated stop at the same timestamp is a
no-op. -/
theorem stopCapture_behavior_witness :
    StopCapture (StopCapture tr0 5).1 5 = StopCapture tr0 5 :=
  (stopCapture_behavior tr0 5 5).2.2.2 rfl

/-- The tick environment of the C4 counterexample: monitor 0's image file
cannot be created, monitor 1 would capture and persist fine. -/
def tickCreateFail : TickCtx :=
  { outcome := fun m => if m = 0 then .createFail else .ok 4 3
    ts := [], tsAbs := [], now := 1 }

/-- The two-monitor tracker of the C4 counterexample. -/
def tr2 : TaskTracker := { tr0 with MonitorsToCapture := [0, 1] }

/-- Counterexample to C4 as stated: on a tick where monitor 0's file create
fails and monitor 1 would succeed, `captureScreenshot` returns immediately —
monitor 1 is NOT captured on that tick (no records at all here), contrary to
the claim that the remaining monitors are still captured and recorded. -/
theorem captureScreenshot_persist_abort :
    tickCreateFail.outcome 1 = .ok 4 3 ∧
    (captureScreenshot tr2 tickCreateFail).1.Screenshots = [] ∧
    (captureScreenshot tr2 tickCreateFail).2 = some .createFailed := by
  refine ⟨by with_unfolding_all rfl, by with_unfolding_all rfl, by with_unfolding_all rfl⟩

/-- **C4** (amended): a capture failure on one monitor skips exactly that
capture and the tick continues with the remaining monitors; a persist
failure (file create or PNG encode) aborts the REST of the tick, keeping
the records appended before the failure and returning an error; the
`StartCapture` loop discards that error, so subsequent ticks still run and
the session is not aborted. -/
theorem captureScreenshot_error_policy :
    (∀ (ctx : TickCtx) (multi : Bool) (dir : List Char) (rel : ℚ) (m : ℤ)
        (rest : List ℤ) (acc : List Screenshot), ctx.outcome m = .captureFail →
        captureLoop ctx multi dir rel (m :: rest) acc =
          captureLoop ctx multi dir rel rest acc) ∧
    (∀ (ctx : TickCtx) (multi : Bool) (dir : List Char) (rel : ℚ) (m : ℤ)
        (rest : List ℤ) (acc : List Screenshot), ctx.outcome m = .createFail →
        captureLoop ctx multi dir rel (m :: rest) acc = (acc, some .createFailed)) ∧
    (∀ (ctx : TickCtx) (multi : Bool) (dir : List Char) (rel : ℚ) (m : ℤ)
        (rest : List ℤ) (acc : List Screenshot), ctx.outcome m = .encodeFail →
        captureLoop ctx multi dir rel (m :: rest) acc = (acc, some .encodeFailed)) ∧
    (∀ (t : TaskTracker) (c : TickCtx) (rest : List TickCtx),
        runTicks t (c :: rest) = runTicks (captureScreenshot t c).1 rest) := by
  refine ⟨?_, ?_, ?_, ?_⟩
  · intro ctx multi dir rel m rest acc h
    simp only [captureLoop, h]
  · intro ctx multi dir rel m rest acc h
    simp only [captureLoop, h]
  · intro ctx multi dir rel m rest acc h
    simp only [captureLoop, h]
  · intro t c rest
    rfl

/-- The all-monitors-fail-to-capture tick used by the C4 witness. -/
def tickSkip : TickCtx := { outcome := fun _ => .captureFail, ts := [], tsAbs := [], now := 0 }

/-- Witness for the amended C4: a capture failure skips monitor 0 and the
tick goes on; the loop keeps running after an erroring tick. -/
theorem captureScreenshot_error_policy_witness :
    tickSkip.outcome 0 = .captureFail ∧
    captureLoop tickSkip false [] 0 [0, 1] [] = captureLoop tickSkip false [] 0 [1] [] ∧
    runTicks tr2 [tickCreateFail] = (captureScreenshot tr2 tickCreateFail).1 :=
  ⟨rfl, captureScreenshot_error_policy.1 tickSkip false [] 0 0 [1] [] rfl,
    captureScreenshot_error_policy.2.2.2 tr2 tickCreateFail []⟩

/-! ## Metadata persistence round trip (lines 246-264 and 531-559)

`saveMetadata` writes `metadata.json` via `json.MarshalIndent`;
`analyzeCmd` reads it back via `json.Unmarshal` into the same
`SessionMetadata` struct and rebuilds a `TaskTracker` from it. The
serialization is modelled at the JSON-document level (the byte rendering
and parsing of the document is Go's `encoding/json` collaborator): `save`
produces the document with the struct's field tags, `load` looks fields up
by tag with Go's semantics (absent field ⇒ zero value, wrong type ⇒
error). -/

/-- A JSON document. -/
inductive Json where
  | str (s : List Char)
  | num (q : ℚ)
  | arr (elems : List Json)
  | obj (fields : List (List Char × Json))

/-- First field of an object with the given key. -/
def getField : List (List Char × Json) → List Char → Option Json
  | [], _ => none
  | (k, v) :: rest, key => if k = key then some v else getField rest key

/-- Decode a string field (absent ⇒ Go zero value `""`). -/
def fieldStr (fs : List (List Char × Json)) (key : List Char) : Option (List Char) :=
  match getField fs key with
  | none => some []
  | some (.str s) => some s
  | some _ => none

/-- Decode a float64 field (absent ⇒ 0). -/
def fieldNum (fs : List (List Char × Json)) (key : List Char) : Option ℚ :=
  match getField fs key with
  | none => some 0
  | some (.num q) => some q
  | some _ => none

/-- Decode an int field (absent ⇒ 0; fractional number ⇒ error). -/
def fieldInt (fs : List (List Char × Json)) (key : List Char) : Option ℤ :=
  match getField fs key with
  | none => some 0
  | some (.num q) => if q.den = 1 then some q.num else none
  | some _ => none

/-- Decode an array field (absent ⇒ nil slice). -/
def fieldArr (fs : List (List Char × Json)) (key : List Char) : Option (List Json) :=
  match getField fs key with
  | none => some []
  | some (.arr l) => some l
  | some _ => none

/-- `json.Marshal` of one `Screenshot` (its five struct tags). -/
def marshalScreenshot (s : Screenshot) : Json :=
  .obj [(("path").toList, .str s.Path),
        (("monitor").toList, .num (s.Monitor : ℚ)),
        (("timestamp").toList, .str s.Timestamp),
        (("relative_time").toList, .num s.RelativeTime),
        (("resolution").toList, .str s.Resolution)]

/-- `json.Unmarshal` of one `Screenshot`. -/
def unmarshalScreenshot (j : Json) : Option Screenshot :=
  match j with
  | .obj fs => do
      let path ← fieldStr fs (("path").toList)
      let monitor ← fieldInt fs (("monitor").toList)
      let timestamp ← fieldStr fs (("timestamp").toList)
      let rel ← fieldNum fs (("relative_time").toList)
      let res ← fieldStr fs (("resolution").toList)
      pure { Path := path, Monitor := monitor, Timestamp := timestamp,
             RelativeTime := rel, Resolution := res }
  | _ => none

/-- Element-wise decoding of the screenshots array. -/
def unmarshalShots : List Json → Option (List Screenshot)
  | [] => some []
  | j :: rest =>
      match unmarshalScreenshot j, unmarshalShots rest with
      | some s, some l => some (s :: l)
      | _, _ => none

/-- `json.MarshalIndent` of the `SessionMetadata` struct (its seven tags). -/
def marshalMetadata (m : SessionMetadata) : Json :=
  .obj [(("session_id").toList, .str m.SessionID),
        (("task_name").toList, .str m.TaskName),
        (("start_time").toList, .num m.StartTime),
        (("end_time").toList, .num m.EndTime),
        (("duration_seconds").toList, .num m.DurationSeconds),
        (("screenshot_count").toList, .num (m.ScreenshotCount : ℚ)),
        (("screenshots").toList, .arr (m.Screenshots.map marshalScreenshot))]

/-- `json.Unmarshal` into `SessionMetadata`. -/
def unmarshalMetadata (j : Json) : Option SessionMetadata :=
  match j with
  | .obj fs => do
      let sid ← fieldStr fs (("session_id").toList)
      let task ← fieldStr fs (("task_name").toList)
      let start ← fieldNum fs (("start_time").toList)
      let stop ← fieldNum fs (("end_time").toList)
      let dur ← fieldNum fs (("duration_seconds").toList)
      let cnt ← fieldInt fs (("screenshot_count").toList)
      let shotsJson ← fieldArr fs (("screenshots").toList)
      let shots ← unmarshalShots shotsJson
      pure { SessionID := sid, TaskName := task, StartTime := start, EndTime := stop,
             DurationSeconds := dur, ScreenshotCount := cnt, Screenshots := shots }
  | _ => none

/-- The `analyze` command's session reconstruction (lines 549-559): builds
a fresh `TaskTracker` from the loaded metadata (times re-parsed, parse
errors discarded with `_`). -/
def analyzeLoad (j : Json) (sessionDir apiKey : List Char) : Option TaskTracker :=
  (unmarshalMetadata j).map (fun md =>
    { OutputDir := [], SessionID := md.SessionID, SessionDir := sessionDir
      TaskName := md.TaskName, Screenshots := md.Screenshots, IsCapturing := false
      CaptureInterval := 0, MonitorsConfig := [], MonitorsToCapture := []
      StartTime := md.StartTime, EndTime := md.EndTime, AnthropicAPIKey := apiKey })

theorem unmarshalScreenshot_roundtrip (s : Screenshot) :
    unmarshalScreenshot (marshalScreenshot s) = some s := rfl

theorem unmarshalShots_roundtrip (l : List Screenshot) :
    unmarshalShots (l.map marshalScreenshot) = some l := by
  induction l with
  | nil => rfl
  | cons s rest ih =>
      simp only [List.map_cons, unmarshalShots, unmarshalScreenshot_roundtrip s, ih]

theorem unmarshalMetadata_roundtrip (m : SessionMetadata) :
    unmarshalMetadata (marshalMetadata m) = some m := by
  have key : unmarshalMetadata (marshalMetadata m) =
      (unmarshalShots (m.Screenshots.map marshalScreenshot)).bind
        (fun shots => some (⟨m.SessionID, m.TaskName, m.StartTime, m.EndTime,
          m.DurationSeconds, m.ScreenshotCount, shots⟩ : SessionMetadata)) := rfl
  rw [key, unmarshalShots_roundtrip]
  rfl

/-- **C8**: for every stopped session, loading the metadata document that
`saveMetadata` wrote (the way `analyzeCmd` does) reproduces a records list
identical to the one saved — same length and, per record, the same path,
monitor, timestamp, relative time and resolution (record equality covers
all five fields). -/
theorem metadata_records_roundtrip (t : TaskTracker) (hstopped : t.IsCapturing = false) :
    (analyzeLoad (marshalMetadata (saveMetadata t)) t.SessionDir t.AnthropicAPIKey).map
      (fun tr => tr.Screenshots) = some t.Screenshots := by
  rw [analyzeLoad, unmarshalMetadata_roundtrip]
  rfl

/-- Witness for C8 on a concrete stopped session. -/
theorem metadata_records_roundtrip_witness :
    (StopCapture tr0 5).1.IsCapturing = false ∧
    (analyzeLoad (marshalMetadata (saveMetadata (StopCapture tr0 5).1))
        (StopCapture tr0 5).1.SessionDir (StopCapture tr0 5).1.AnthropicAPIKey).map
      (fun tr => tr.Screenshots) = some (StopCapture tr0 5).1.Screenshots :=
  ⟨rfl, metadata_records_roundtrip ((StopCapture tr0 5).1) rfl⟩
